import Mathlib

/-!
Shallow embedding of the `maven_coordinates` Rust crate (src/lib.rs).

Rust `String` / `&str` values are modelled as `List Char`; all the string
operations the crate performs (`split` on a one-character pattern, `rfind`
of a one-character pattern followed by slicing at that character's
boundary, concatenation, `chars().last()`) act on whole characters, so the
character-list model is faithful.
-/

namespace Maven

/-- Maven coordinates part separator (Rust: the one-character pattern `":"`). -/
def MAVEN_COORDINATES_SPLITTER : Char := ':'

/-- Standard packaging used by Maven if no packaging is provided in the coordinates. -/
def MAVEN_STANDARD_PACKAGING : List Char := "jar".toList

/-- Splitter used to separate artifact name from version and classifier in file name
(Rust: the one-character pattern `"-"`). -/
def FILENAME_SPLITTER : Char := '-'

/-- Splitter used to separate packaging (extension) from the base name of the artifact
(Rust: the one-character pattern `"."`). -/
def EXTENSION_SPLITTER : Char := '.'

/-- Default separator. -/
def DEFAULT_SEPARATOR : Char := '/'

/-- Rust `str::split` with a one-character pattern: the (possibly empty) runs of
characters between occurrences of `sep`, in order.  Splitting the empty string
yields `[[]]`, splitting a string with `n` separators yields `n + 1` tokens. -/
def splitOn (sep : Char) : List Char → List (List Char)
  | [] => [[]]
  | c :: cs =>
    match splitOn sep cs with
    | [] => [[]]
    | t :: ts => if c = sep then [] :: t :: ts else (c :: t) :: ts

/-- Rust `str::rfind` with a one-character pattern: the index of the last
occurrence of `pat`, if any. -/
def rfind (pat : Char) : List Char → Option Nat
  | [] => none
  | c :: cs =>
    match rfind pat cs with
    | some i => some (i + 1)
    | none => if c = pat then some 0 else none

/-- Subset of Rust `std::io::ErrorKind` variants relevant here; the crate only
ever constructs `InvalidInput`, the others stand in for the remaining variants. -/
inductive ErrorKind where
  | NotFound
  | PermissionDenied
  | InvalidInput
  | InvalidData
  | Other
deriving DecidableEq, Repr

instance exceptDecEq {ε α : Type} [DecidableEq ε] [DecidableEq α] :
    DecidableEq (Except ε α) := fun a b =>
  match a, b with
  | .error e1, .error e2 =>
    if h : e1 = e2 then .isTrue (h ▸ rfl) else .isFalse (fun hc => h (by cases hc; rfl))
  | .error _, .ok _ => .isFalse (fun hc => Except.noConfusion hc)
  | .ok _, .error _ => .isFalse (fun hc => Except.noConfusion hc)
  | .ok a1, .ok a2 =>
    if h : a1 = a2 then .isTrue (h ▸ rfl) else .isFalse (fun hc => h (by cases hc; rfl))

/-- Standard Maven Coordinates (the six owned fields of the Rust struct). -/
structure Coordinates where
  group_id : List Char
  artifact_id : List Char
  version : List Char
  version_label : Option (List Char)
  packaging : List Char
  classifier : Option (List Char)
deriving DecidableEq, Repr

namespace Coordinates

/-- Rust `Coordinates::split_version`: splits the version token at the last
`-` (if any) into the version itself and the qualifier part. -/
def split_version (version : List Char) : List Char × Option (List Char) :=
  match rfind FILENAME_SPLITTER version with
  | some split_index => (version.take split_index, some (version.drop (split_index + 1)))
  | none => (version, none)

/-- Rust `Coordinates::new`: splits the coordinates string on `:`, takes the
first three tokens as group id, artifact id and version part (all three
mandatory, otherwise `ErrorKind::InvalidInput`), splits the version part,
then takes the next token as packaging (defaulting to `"jar"` when absent)
and the next as classifier. -/
def new (coordinates : List Char) : Except ErrorKind Coordinates :=
  match splitOn MAVEN_COORDINATES_SPLITTER coordinates with
  | group_id :: artifact_id :: version_part :: rest =>
    let vq := split_version version_part
    .ok {
      group_id := group_id
      artifact_id := artifact_id
      version := vq.1
      version_label := vq.2
      packaging := rest.head?.getD MAVEN_STANDARD_PACKAGING
      classifier := rest.tail.head?
    }
  | _ => .error .InvalidInput

/-- Rust `Coordinates::full_version`: the version plus, when a label is
present, a `-` and the label. -/
def full_version (c : Coordinates) : List Char :=
  match c.version_label with
  | some version_qualifier => c.version ++ FILENAME_SPLITTER :: version_qualifier
  | none => c.version

/-- Rust `Coordinates::file_basename`: artifact id, `-`, full version, and
when a classifier is present another `-` and the classifier. -/
def file_basename (c : Coordinates) : List Char :=
  let base := c.artifact_id ++ FILENAME_SPLITTER :: c.full_version
  match c.classifier with
  | some classifier => base ++ FILENAME_SPLITTER :: classifier
  | none => base

/-- Rust `Coordinates::file_name`: the base file name, `.`, and the packaging. -/
def file_name (c : Coordinates) : List Char :=
  c.file_basename ++ EXTENSION_SPLITTER :: c.packaging

/-- Rust `Coordinates::as_path_with_separator`: for each dot-separated segment
of the group id, the segment then the separator; then artifact id, separator,
full version, separator, file name. -/
def as_path_with_separator (c : Coordinates) (separator : Char) : List Char :=
  let path := (splitOn '.' c.group_id).foldl
    (fun path directory => path ++ directory ++ [separator]) []
  path ++ c.artifact_id ++ separator :: c.full_version ++ separator :: c.file_name

/-- Rust `Coordinates::as_path`: the path with the default separator `/`. -/
def as_path (c : Coordinates) : List Char :=
  c.as_path_with_separator DEFAULT_SEPARATOR

/-- Rust `ToString for Coordinates`: group, artifact and full version joined by
`:`; when the packaging differs from `"jar"` or a classifier is present, also
`:` and the packaging, and when a classifier is present `:` and the classifier. -/
def to_string (c : Coordinates) : List Char :=
  let base := c.group_id ++ MAVEN_COORDINATES_SPLITTER :: c.artifact_id
    ++ MAVEN_COORDINATES_SPLITTER :: c.full_version
  if c.packaging ≠ MAVEN_STANDARD_PACKAGING ∨ c.classifier.isSome then
    let withPackaging := base ++ MAVEN_COORDINATES_SPLITTER :: c.packaging
    match c.classifier with
    | some classifier => withPackaging ++ MAVEN_COORDINATES_SPLITTER :: classifier
    | none => withPackaging
  else base

/-- Rust `Coordinates::resolve`: the Maven server location, a `/` appended
when its last character (or a space placeholder when it is empty, as in
`chars().last().unwrap_or(' ')`) is not `/`, then the path. -/
def resolve (c : Coordinates) (maven_location : List Char) : List Char :=
  let loc :=
    if maven_location.getLast?.getD ' ' ≠ '/' then maven_location ++ ['/']
    else maven_location
  loc ++ c.as_path

end Coordinates

/-- Sample coordinate set used as a concrete witness value: the parse of
`io.github.brawaru:artifact:1.0.0-SNAPSHOT`. -/
def sampleCoords : Coordinates :=
  { group_id := "io.github.brawaru".toList
    artifact_id := "artifact".toList
    version := "1.0.0".toList
    version_label := some "SNAPSHOT".toList
    packaging := "jar".toList
    classifier := none }

/-! Helper lemmas about `splitOn` and `rfind`. -/

theorem splitOn_ne_nil (sep : Char) (s : List Char) : splitOn sep s ≠ [] := by
  induction s with
  | nil => simp [splitOn]
  | cons c cs ih =>
    rw [splitOn]
    rcases h : splitOn sep cs with _ | ⟨t, ts⟩
    · exact absurd h ih
    · by_cases hc : c = sep <;> simp [hc]

theorem splitOn_cons (sep c : Char) (cs t : List Char) (ts : List (List Char))
    (h : splitOn sep cs = t :: ts) :
    splitOn sep (c :: cs) = if c = sep then [] :: t :: ts else (c :: t) :: ts := by
  rw [splitOn, h]

theorem splitOn_length (sep : Char) (s : List Char) :
    (splitOn sep s).length = s.count sep + 1 := by
  induction s with
  | nil => simp [splitOn]
  | cons c cs ih =>
    rcases h : splitOn sep cs with _ | ⟨t, ts⟩
    · exact absurd h (splitOn_ne_nil sep cs)
    · rw [splitOn_cons sep c cs t ts h]
      rw [h] at ih
      by_cases hc : c = sep
      · subst hc
        rw [if_pos rfl, List.count_cons_self]
        simp only [List.length_cons] at ih ⊢
        omega
      · have hc' : sep ≠ c := fun hcc => hc hcc.symm
        rw [if_neg hc, List.count_cons_of_ne hc']
        simp only [List.length_cons] at ih ⊢
        omega

theorem splitOn_of_not_mem (sep : Char) (s : List Char) (h : sep ∉ s) :
    splitOn sep s = [s] := by
  induction s with
  | nil => simp [splitOn]
  | cons c cs ih =>
    have hc : c ≠ sep := fun hc => h (hc ▸ List.mem_cons_self c cs)
    have hcs : sep ∉ cs := fun hm => h (List.mem_cons_of_mem c hm)
    rw [splitOn, ih hcs]
    simp [hc]

theorem splitOn_append (sep : Char) (x y : List Char) (hx : sep ∉ x) :
    splitOn sep (x ++ sep :: y) = x :: splitOn sep y := by
  induction x with
  | nil =>
    simp only [List.nil_append]
    rw [splitOn]
    rcases h : splitOn sep y with _ | ⟨t, ts⟩
    · exact absurd h (splitOn_ne_nil sep y)
    · simp
  | cons c cs ih =>
    have hc : c ≠ sep := fun hc => hx (hc ▸ List.mem_cons_self c cs)
    have hcs : sep ∉ cs := fun hm => hx (List.mem_cons_of_mem c hm)
    simp only [List.cons_append]
    rw [splitOn, ih hcs]
    simp [hc]

theorem not_mem_of_mem_splitOn (sep : Char) (s t : List Char)
    (ht : t ∈ splitOn sep s) : sep ∉ t := by
  induction s generalizing t with
  | nil =>
    simp [splitOn] at ht
    subst ht
    simp
  | cons c cs ih =>
    rcases h : splitOn sep cs with _ | ⟨t0, ts⟩
    · exact absurd h (splitOn_ne_nil sep cs)
    · rw [splitOn_cons sep c cs t0 ts h] at ht
      by_cases hc : c = sep
      · rw [if_pos hc] at ht
        rcases List.mem_cons.mp ht with ht | ht
        · subst ht; simp
        · exact ih t (h ▸ ht)
      · rw [if_neg hc] at ht
        rcases List.mem_cons.mp ht with ht | ht
        · subst ht
          have ht0 : sep ∉ t0 := ih t0 (h ▸ List.mem_cons_self t0 ts)
          intro hmem
          rcases List.mem_cons.mp hmem with hmem | hmem
          · exact hc hmem.symm
          · exact ht0 hmem
        · exact ih t (h ▸ List.mem_cons_of_mem t0 ht)

theorem rfind_eq_none_iff (pat : Char) (s : List Char) :
    rfind pat s = none ↔ pat ∉ s := by
  induction s with
  | nil => simp [rfind]
  | cons c cs ih =>
    rw [rfind]
    rcases h : rfind pat cs with _ | i
    · rw [h] at ih
      by_cases hc : c = pat
      · subst hc
        simp
      · have hc' : pat ≠ c := fun hcc => hc hcc.symm
        simp [hc, hc', ih.mp rfl]
    · have hmem : pat ∈ cs := by
        by_contra hmem
        rw [ih.mpr hmem] at h
        exact Option.noConfusion h
      simp [List.mem_cons, hmem]

theorem rfind_append_last (pat : Char) (v l : List Char) (hl : pat ∉ l) :
    rfind pat (v ++ pat :: l) = some v.length := by
  induction v with
  | nil =>
    simp only [List.nil_append]
    rw [rfind, (rfind_eq_none_iff pat l).mpr hl]
    simp
  | cons c cs ih =>
    simp only [List.cons_append]
    rw [rfind, ih]
    simp

theorem rfind_some_spec (pat : Char) (s : List Char) (i : Nat)
    (h : rfind pat s = some i) :
    s = s.take i ++ pat :: s.drop (i + 1) ∧ pat ∉ s.drop (i + 1) := by
  induction s generalizing i with
  | nil => simp [rfind] at h
  | cons c cs ih =>
    rw [rfind] at h
    rcases hcs : rfind pat cs with _ | j
    · rw [hcs] at h
      by_cases hc : c = pat
      · rw [if_pos hc] at h
        have hi : i = 0 := (Option.some.injEq _ _).mp h.symm ▸ rfl
        subst hi
        subst hc
        refine ⟨by simp, ?_⟩
        simpa using (rfind_eq_none_iff c cs).mp hcs
      · rw [if_neg hc] at h
        exact Option.noConfusion h
    · rw [hcs] at h
      have hi : i = j + 1 := by
        have := (Option.some.injEq _ _).mp h
        omega
      subst hi
      obtain ⟨h1, h2⟩ := ih j hcs
      refine ⟨?_, by simpa using h2⟩
      rw [List.take_succ_cons, List.drop_succ_cons]
      exact congrArg (c :: ·) h1

theorem take_length_append (p l : List Char) : (p ++ l).take p.length = p := by
  induction p with
  | nil => simp
  | cons c cs ih => simp [ih]

theorem drop_length_append (p l : List Char) : (p ++ l).drop p.length = l := by
  induction p with
  | nil => simp
  | cons c cs ih => simp [ih]

theorem split_version_of_not_mem (v : List Char) (h : '-' ∉ v) :
    Coordinates.split_version v = (v, none) := by
  have : rfind FILENAME_SPLITTER v = none := (rfind_eq_none_iff _ _).mpr h
  simp [Coordinates.split_version, this]

theorem split_version_append (p l : List Char) (hl : '-' ∉ l) :
    Coordinates.split_version (p ++ '-' :: l) = (p, some l) := by
  have hr : rfind FILENAME_SPLITTER (p ++ '-' :: l) = some p.length :=
    rfind_append_last '-' p l hl
  have hdrop : (p ++ '-' :: l).drop (p.length + 1) = l := by
    have : p ++ '-' :: l = (p ++ ['-']) ++ l := by simp
    rw [this]
    have hlen : (p ++ ['-']).length = p.length + 1 := by simp
    rw [← hlen]
    exact drop_length_append _ _
  have htake : (p ++ '-' :: l).take p.length = p := take_length_append p ('-' :: l)
  simp [Coordinates.split_version, hr, htake, hdrop]

theorem split_version_cases (v : List Char) :
    (Coordinates.split_version v = (v, none) ∧ '-' ∉ v) ∨
    (∃ p l, v = p ++ '-' :: l ∧ '-' ∉ l ∧
      Coordinates.split_version v = (p, some l)) := by
  rcases h : rfind '-' v with _ | i
  · exact Or.inl ⟨by simp [Coordinates.split_version, FILENAME_SPLITTER, h],
      (rfind_eq_none_iff _ _).mp h⟩
  · obtain ⟨h1, h2⟩ := rfind_some_spec '-' v i h
    exact Or.inr ⟨v.take i, v.drop (i + 1), h1, h2,
      by simp [Coordinates.split_version, FILENAME_SPLITTER, h]⟩

/-! Helper lemmas about `Coordinates.new` and the derived strings. -/

theorem eq_of_fields {c d : Coordinates}
    (h1 : c.group_id = d.group_id) (h2 : c.artifact_id = d.artifact_id)
    (h3 : c.version = d.version) (h4 : c.version_label = d.version_label)
    (h5 : c.packaging = d.packaging) (h6 : c.classifier = d.classifier) :
    c = d := by
  cases c
  cases d
  cases h1
  cases h2
  cases h3
  cases h4
  cases h5
  cases h6
  rfl

theorem new_eq_of_splitOn (s g a v : List Char) (rest : List (List Char))
    (h : splitOn ':' s = g :: a :: v :: rest) :
    Coordinates.new s = .ok {
      group_id := g
      artifact_id := a
      version := (Coordinates.split_version v).1
      version_label := (Coordinates.split_version v).2
      packaging := rest.head?.getD MAVEN_STANDARD_PACKAGING
      classifier := rest.tail.head? } := by
  simp [Coordinates.new, MAVEN_COORDINATES_SPLITTER, h]

theorem new_eq_error_one (s g : List Char) (h : splitOn ':' s = [g]) :
    Coordinates.new s = .error .InvalidInput := by
  simp [Coordinates.new, MAVEN_COORDINATES_SPLITTER, h]

theorem new_eq_error_two (s g a : List Char) (h : splitOn ':' s = [g, a]) :
    Coordinates.new s = .error .InvalidInput := by
  simp [Coordinates.new, MAVEN_COORDINATES_SPLITTER, h]

theorem full_version_some (c : Coordinates) (l : List Char)
    (h : c.version_label = some l) :
    c.full_version = c.version ++ '-' :: l := by
  simp [Coordinates.full_version, FILENAME_SPLITTER, h]

theorem full_version_none (c : Coordinates) (h : c.version_label = none) :
    c.full_version = c.version := by
  simp [Coordinates.full_version, h]

theorem to_string_default (c : Coordinates)
    (hp : c.packaging = MAVEN_STANDARD_PACKAGING) (hcl : c.classifier = none) :
    c.to_string = c.group_id ++ ':' :: (c.artifact_id ++ ':' :: c.full_version) := by
  simp [Coordinates.to_string, MAVEN_COORDINATES_SPLITTER, hp, hcl]

theorem to_string_with_packaging (c : Coordinates)
    (hp : c.packaging ≠ MAVEN_STANDARD_PACKAGING) (hcl : c.classifier = none) :
    c.to_string = c.group_id ++ ':' ::
      (c.artifact_id ++ ':' :: (c.full_version ++ ':' :: c.packaging)) := by
  simp [Coordinates.to_string, MAVEN_COORDINATES_SPLITTER, hp, hcl]

theorem to_string_with_classifier (c : Coordinates) (cl : List Char)
    (hcl : c.classifier = some cl) :
    c.to_string = c.group_id ++ ':' :: (c.artifact_id ++ ':' ::
      (c.full_version ++ ':' :: (c.packaging ++ ':' :: cl))) := by
  simp [Coordinates.to_string, MAVEN_COORDINATES_SPLITTER, hcl]

theorem splitOn_three (g a f : List Char)
    (hg : ':' ∉ g) (ha : ':' ∉ a) (hf : ':' ∉ f) :
    splitOn ':' (g ++ ':' :: (a ++ ':' :: f)) = [g, a, f] := by
  rw [splitOn_append ':' g _ hg, splitOn_append ':' a _ ha,
    splitOn_of_not_mem ':' f hf]

theorem splitOn_four (g a f p : List Char)
    (hg : ':' ∉ g) (ha : ':' ∉ a) (hf : ':' ∉ f) (hp : ':' ∉ p) :
    splitOn ':' (g ++ ':' :: (a ++ ':' :: (f ++ ':' :: p))) = [g, a, f, p] := by
  rw [splitOn_append ':' g _ hg, splitOn_append ':' a _ ha,
    splitOn_append ':' f _ hf, splitOn_of_not_mem ':' p hp]

theorem splitOn_five (g a f p q : List Char)
    (hg : ':' ∉ g) (ha : ':' ∉ a) (hf : ':' ∉ f) (hp : ':' ∉ p) (hq : ':' ∉ q) :
    splitOn ':' (g ++ ':' :: (a ++ ':' :: (f ++ ':' :: (p ++ ':' :: q)))) =
      [g, a, f, p, q] := by
  rw [splitOn_append ':' g _ hg, splitOn_append ':' a _ ha,
    splitOn_append ':' f _ hf, splitOn_append ':' p _ hp,
    splitOn_of_not_mem ':' q hq]

theorem new_ok_fields (s : List Char) (c : Coordinates)
    (h : Coordinates.new s = .ok c) :
    ':' ∉ c.group_id ∧ ':' ∉ c.artifact_id ∧ ':' ∉ c.full_version ∧ ':' ∉ c.packaging
    ∧ (∀ cl, c.classifier = some cl → ':' ∉ cl)
    ∧ Coordinates.split_version c.full_version = (c.version, c.version_label) := by
  rcases hsp : splitOn ':' s with _ | ⟨g, _ | ⟨a, _ | ⟨v, rest⟩⟩⟩
  · exact absurd hsp (splitOn_ne_nil ':' s)
  · rw [new_eq_error_one s g hsp] at h
    exact Except.noConfusion h
  · rw [new_eq_error_two s g a hsp] at h
    exact Except.noConfusion h
  · rw [new_eq_of_splitOn s g a v rest hsp] at h
    injection h with hc
    subst hc
    have hg : ':' ∉ g :=
      not_mem_of_mem_splitOn ':' s g (by rw [hsp]; exact List.mem_cons_self _ _)
    have ha : ':' ∉ a := not_mem_of_mem_splitOn ':' s a (by rw [hsp]; simp)
    have hv : ':' ∉ v := not_mem_of_mem_splitOn ':' s v (by rw [hsp]; simp)
    have hpk : ':' ∉ rest.head?.getD MAVEN_STANDARD_PACKAGING := by
      rcases rest with _ | ⟨p, rest2⟩
      · decide
      · exact not_mem_of_mem_splitOn ':' s p (by rw [hsp]; simp)
    have hcls : ∀ cl, rest.tail.head? = some cl → ':' ∉ cl := by
      intro cl hcl
      rcases rest with _ | ⟨p, rest2⟩
      · simp at hcl
      · rcases rest2 with _ | ⟨q, rest3⟩
        · simp at hcl
        · simp at hcl
          subst hcl
          exact not_mem_of_mem_splitOn ':' s q (by rw [hsp]; simp)
    rcases split_version_cases v with ⟨heq, hnm⟩ | ⟨p, l, hveq, hl, heq⟩
    · have hfv : Coordinates.full_version
          ⟨g, a, (Coordinates.split_version v).1, (Coordinates.split_version v).2,
            rest.head?.getD MAVEN_STANDARD_PACKAGING, rest.tail.head?⟩ = v := by
        rw [full_version_none _ (by show (Coordinates.split_version v).2 = none; rw [heq])]
        show (Coordinates.split_version v).1 = v
        rw [heq]
      refine ⟨hg, ha, ?_, hpk, hcls, ?_⟩
      · rw [hfv]; exact hv
      · rw [hfv, heq]
    · have hfv : Coordinates.full_version
          ⟨g, a, (Coordinates.split_version v).1, (Coordinates.split_version v).2,
            rest.head?.getD MAVEN_STANDARD_PACKAGING, rest.tail.head?⟩ = v := by
        rw [full_version_some _ l (by show (Coordinates.split_version v).2 = some l; rw [heq])]
        show (Coordinates.split_version v).1 ++ '-' :: l = v
        rw [heq, hveq]
      refine ⟨hg, ha, ?_, hpk, hcls, ?_⟩
      · rw [hfv]; exact hv
      · rw [hfv]

/-- C1: parsing returns the invalid-input error exactly when splitting the
input on `:` yields fewer than 3 tokens (equivalently, when the input
contains fewer than two `:` characters); for every input with at least 3
tokens it returns `Ok`, and no error kind other than `InvalidInput` is ever
produced. -/
theorem C1_invalid_input_iff (s : List Char) :
    ((∃ e, Coordinates.new s = .error e) ↔ (splitOn ':' s).length < 3)
    ∧ ((splitOn ':' s).length < 3 ↔ s.count ':' < 2)
    ∧ (3 ≤ (splitOn ':' s).length → ∃ c, Coordinates.new s = .ok c)
    ∧ (∀ e, Coordinates.new s = .error e → e = ErrorKind.InvalidInput) := by
  have hlen := splitOn_length ':' s
  have hmaster : (∃ c, Coordinates.new s = .ok c ∧ 3 ≤ (splitOn ':' s).length) ∨
      (Coordinates.new s = .error .InvalidInput ∧ (splitOn ':' s).length < 3) := by
    rcases hsp : splitOn ':' s with _ | ⟨g, _ | ⟨a, _ | ⟨v, rest⟩⟩⟩
    · exact absurd hsp (splitOn_ne_nil ':' s)
    · exact Or.inr ⟨new_eq_error_one s g hsp, by simp⟩
    · exact Or.inr ⟨new_eq_error_two s g a hsp, by simp⟩
    · exact Or.inl ⟨_, new_eq_of_splitOn s g a v rest hsp, by simp⟩
  refine ⟨⟨?_, ?_⟩, by omega, ?_, ?_⟩
  · rintro ⟨e, he⟩
    rcases hmaster with ⟨c, hc, _⟩ | ⟨_, hlt⟩
    · rw [hc] at he
      exact Except.noConfusion he
    · exact hlt
  · intro hlt
    rcases hmaster with ⟨c, _, hge⟩ | ⟨herr, _⟩
    · omega
    · exact ⟨_, herr⟩
  · intro hge
    rcases hmaster with ⟨c, hc, _⟩ | ⟨_, hlt⟩
    · exact ⟨c, hc⟩
    · omega
  · intro e he
    rcases hmaster with ⟨c, hc, _⟩ | ⟨herr, _⟩
    · rw [hc] at he
      exact Except.noConfusion he
    · rw [herr] at he
      injection he with he2
      exact he2.symm

/-- Witness for C1 at concrete inputs: a 2-token input fails, a 3-token
input succeeds. -/
theorem C1_invalid_input_iff_witness :
    (∃ e, Coordinates.new ("group:artifact".toList) = .error e)
    ∧ (∃ c, Coordinates.new ("g:a:1.0".toList) = .ok c) :=
  ⟨(C1_invalid_input_iff ("group:artifact".toList)).1.mpr (by decide),
   (C1_invalid_input_iff ("g:a:1.0".toList)).2.2.1 (by decide)⟩

/-- C2: for every input whose split on `:` has at least 3 tokens, parsing
succeeds and assigns fields positionally: token 1 group, token 2 artifact,
token 3 version-with-label (split into version and label), token 4 (when
present) packaging, token 5 (when present) classifier, with an absent 5th
token giving `none` and a present-but-empty one giving `some []`; tokens
beyond the fifth are ignored. -/
theorem C2_positional_fields (s : List Char)
    (h : 3 ≤ (splitOn ':' s).length) :
    ∃ c, Coordinates.new s = .ok c
      ∧ (splitOn ':' s)[0]? = some c.group_id
      ∧ (splitOn ':' s)[1]? = some c.artifact_id
      ∧ (∀ v, (splitOn ':' s)[2]? = some v →
          c.version = (Coordinates.split_version v).1
          ∧ c.version_label = (Coordinates.split_version v).2)
      ∧ c.packaging = ((splitOn ':' s)[3]?).getD MAVEN_STANDARD_PACKAGING
      ∧ c.classifier = (splitOn ':' s)[4]? := by
  rcases hsp : splitOn ':' s with _ | ⟨g, _ | ⟨a, _ | ⟨v, rest⟩⟩⟩
  · exact absurd hsp (splitOn_ne_nil ':' s)
  · rw [hsp] at h
    simp at h
  · rw [hsp] at h
    simp at h
  · refine ⟨_, new_eq_of_splitOn s g a v rest hsp, by simp, by simp, ?_, ?_, ?_⟩
    · intro v' hv'
      simp at hv'
      subst hv'
      exact ⟨rfl, rfl⟩
    · rcases rest with _ | ⟨p, rest2⟩ <;> simp
    · rcases rest with _ | ⟨p, rest2⟩
      · simp
      · rcases rest2 with _ | ⟨q, rest3⟩ <;> simp

/-- Witness for C2 at a concrete 6-token input (extra token ignored,
classifier and packaging both present). -/
theorem C2_positional_fields_witness :
    ∃ c, Coordinates.new ("com.example:app:2.1-rc:war:sources:extra".toList) = .ok c
      ∧ (splitOn ':' ("com.example:app:2.1-rc:war:sources:extra".toList))[0]? =
          some c.group_id
      ∧ (splitOn ':' ("com.example:app:2.1-rc:war:sources:extra".toList))[1]? =
          some c.artifact_id
      ∧ (∀ v, (splitOn ':' ("com.example:app:2.1-rc:war:sources:extra".toList))[2]? =
            some v →
          c.version = (Coordinates.split_version v).1
          ∧ c.version_label = (Coordinates.split_version v).2)
      ∧ c.packaging =
          ((splitOn ':' ("com.example:app:2.1-rc:war:sources:extra".toList))[3]?).getD
            MAVEN_STANDARD_PACKAGING
      ∧ c.classifier =
          (splitOn ':' ("com.example:app:2.1-rc:war:sources:extra".toList))[4]? :=
  C2_positional_fields ("com.example:app:2.1-rc:war:sources:extra".toList) (by decide)

/-- C3 (counterexample): the claim that a parsed version never contains a
hyphen is false: `split_version` strips only the part after the last hyphen,
so parsing `g:a:1.0-beta-SNAPSHOT` stores version `1.0-beta`, which still
contains a hyphen. -/
theorem C3_counterexample_version_hyphen :
    Coordinates.new ("g:a:1.0-beta-SNAPSHOT".toList) =
      .ok { group_id := "g".toList, artifact_id := "a".toList,
            version := "1.0-beta".toList,
            version_label := some "SNAPSHOT".toList,
            packaging := "jar".toList, classifier := none }
    ∧ '-' ∈ ("1.0-beta".toList) := by
  exact ⟨by decide, by decide⟩

/-- C3 (amended): for every coordinate set produced by a successful parse,
the stored version label never contains a hyphen, and the stored version
contains no hyphen whenever the label is absent; when a label was split off
(at the last hyphen), the version keeps any earlier hyphens. -/
theorem C3_amended_no_hyphen (s : List Char) (c : Coordinates)
    (h : Coordinates.new s = .ok c) :
    (∀ l, c.version_label = some l → '-' ∉ l)
    ∧ (c.version_label = none → '-' ∉ c.version) := by
  rcases hsp : splitOn ':' s with _ | ⟨g, _ | ⟨a, _ | ⟨v, rest⟩⟩⟩
  · exact absurd hsp (splitOn_ne_nil ':' s)
  · rw [new_eq_error_one s g hsp] at h
    exact Except.noConfusion h
  · rw [new_eq_error_two s g a hsp] at h
    exact Except.noConfusion h
  · rw [new_eq_of_splitOn s g a v rest hsp] at h
    injection h with hc
    subst hc
    rcases split_version_cases v with ⟨heq, hnm⟩ | ⟨p, l, hveq, hl, heq⟩
    · constructor
      · intro l hlab
        rw [show Coordinates.version_label
            ⟨g, a, (Coordinates.split_version v).1, (Coordinates.split_version v).2,
              rest.head?.getD MAVEN_STANDARD_PACKAGING, rest.tail.head?⟩ =
            (Coordinates.split_version v).2 from rfl, heq] at hlab
        exact Option.noConfusion hlab
      · intro _
        show '-' ∉ (Coordinates.split_version v).1
        rw [heq]
        exact hnm
    · constructor
      · intro l' hlab
        rw [show Coordinates.version_label
            ⟨g, a, (Coordinates.split_version v).1, (Coordinates.split_version v).2,
              rest.head?.getD MAVEN_STANDARD_PACKAGING, rest.tail.head?⟩ =
            (Coordinates.split_version v).2 from rfl, heq] at hlab
        injection hlab with hlab
        subst hlab
        exact hl
      · intro hnone
        rw [show Coordinates.version_label
            ⟨g, a, (Coordinates.split_version v).1, (Coordinates.split_version v).2,
              rest.head?.getD MAVEN_STANDARD_PACKAGING, rest.tail.head?⟩ =
            (Coordinates.split_version v).2 from rfl, heq] at hnone
        exact Option.noConfusion hnone

/-- Witness for the amended C3 at a concrete input with two hyphens in the
version token. -/
theorem C3_amended_no_hyphen_witness :
    (∀ l, (Coordinates.mk "g".toList "a".toList "1.0-beta".toList
        (some "SNAPSHOT".toList) "jar".toList none).version_label = some l → '-' ∉ l)
    ∧ ((Coordinates.mk "g".toList "a".toList "1.0-beta".toList
        (some "SNAPSHOT".toList) "jar".toList none).version_label = none →
      '-' ∉ (Coordinates.mk "g".toList "a".toList "1.0-beta".toList
        (some "SNAPSHOT".toList) "jar".toList none).version) :=
  C3_amended_no_hyphen ("g:a:1.0-beta-SNAPSHOT".toList) _ (by decide)

/-- C4: version-with-label splitting operates on the last hyphen: a token
without a hyphen is returned whole with no label; a token with a hyphen is
decomposed as everything before the last hyphen (the version) and everything
after it (the label, `some []` for a trailing hyphen, never `none`). -/
theorem C4_split_version_last_hyphen (v : List Char) :
    ('-' ∉ v → Coordinates.split_version v = (v, none))
    ∧ ('-' ∈ v → ∃ p l, v = p ++ '-' :: l ∧ '-' ∉ l ∧
        Coordinates.split_version v = (p, some l)) := by
  constructor
  · exact split_version_of_not_mem v
  · intro hv
    rcases split_version_cases v with ⟨_, hnm⟩ | ⟨p, l, hveq, hl, heq⟩
    · exact absurd hv hnm
    · exact ⟨p, l, hveq, hl, heq⟩

/-- Witness for C4: the spec examples `1.0.0` (no hyphen), `1.0.0-SNAPSHOT`
(split at the hyphen) and a trailing hyphen giving a present empty label. -/
theorem C4_split_version_last_hyphen_witness :
    Coordinates.split_version ("1.0.0".toList) = ("1.0.0".toList, none)
    ∧ (∃ p l, "1.0.0-SNAPSHOT".toList = p ++ '-' :: l ∧ '-' ∉ l ∧
        Coordinates.split_version ("1.0.0-SNAPSHOT".toList) = (p, some l))
    ∧ Coordinates.split_version ("1.0.0-".toList) = ("1.0.0".toList, some []) :=
  ⟨(C4_split_version_last_hyphen ("1.0.0".toList)).1 (by decide),
   (C4_split_version_last_hyphen ("1.0.0-SNAPSHOT".toList)).2 (by decide),
   by decide⟩

/-- C5: packaging is the default `jar` when the 4th token is absent, and is
the 4th token itself (including the empty token from two consecutive colons)
when it is present; only absence triggers the default. -/
theorem C5_packaging_default (s : List Char) (c : Coordinates)
    (h : Coordinates.new s = .ok c) :
    ((splitOn ':' s)[3]? = none → c.packaging = MAVEN_STANDARD_PACKAGING)
    ∧ (∀ p, (splitOn ':' s)[3]? = some p → c.packaging = p) := by
  rcases hsp : splitOn ':' s with _ | ⟨g, _ | ⟨a, _ | ⟨v, rest⟩⟩⟩
  · exact absurd hsp (splitOn_ne_nil ':' s)
  · rw [new_eq_error_one s g hsp] at h
    exact Except.noConfusion h
  · rw [new_eq_error_two s g a hsp] at h
    exact Except.noConfusion h
  · rw [new_eq_of_splitOn s g a v rest hsp] at h
    injection h with hc
    subst hc
    rcases rest with _ | ⟨p, rest2⟩
    · exact ⟨fun _ => rfl, fun p hp => by simp at hp⟩
    · refine ⟨fun hn => by simp at hn, fun q hq => ?_⟩
      simp at hq
      subst hq
      rfl

/-- Witness for C5: absent 4th token gives the default `jar`; an empty 4th
token (two consecutive colons) gives the empty packaging, not the default. -/
theorem C5_packaging_default_witness :
    ((splitOn ':' ("g:a:1.0".toList))[3]? = none →
      (Coordinates.mk "g".toList "a".toList "1.0".toList none "jar".toList
        none).packaging = MAVEN_STANDARD_PACKAGING)
    ∧ (∀ p, (splitOn ':' ("g:a:1.0::cls".toList))[3]? = some p →
      (Coordinates.mk "g".toList "a".toList "1.0".toList none [] (some "cls".toList)
        ).packaging = p) :=
  ⟨(C5_packaging_default ("g:a:1.0".toList) _ (by decide)).1,
   (C5_packaging_default ("g:a:1.0::cls".toList) _ (by decide)).2⟩

/-- C6: `to_string` produces group, artifact and full version joined by `:`;
it appends `:packaging` exactly when the packaging differs from `jar` or a
classifier is present, and appends `:classifier` exactly when a classifier
is present, so a classifier is never emitted without the packaging. -/
theorem C6_to_string_conditional (c : Coordinates) :
    (c.packaging = MAVEN_STANDARD_PACKAGING ∧ c.classifier = none →
      c.to_string = c.group_id ++ ':' :: (c.artifact_id ++ ':' :: c.full_version))
    ∧ (c.packaging ≠ MAVEN_STANDARD_PACKAGING ∧ c.classifier = none →
      c.to_string = c.group_id ++ ':' :: (c.artifact_id ++ ':' ::
        (c.full_version ++ ':' :: c.packaging)))
    ∧ (∀ cl, c.classifier = some cl →
      c.to_string = c.group_id ++ ':' :: (c.artifact_id ++ ':' ::
        (c.full_version ++ ':' :: (c.packaging ++ ':' :: cl)))) :=
  ⟨fun h => to_string_default c h.1 h.2,
   fun h => to_string_with_packaging c h.1 h.2,
   fun cl hcl => to_string_with_classifier c cl hcl⟩

/-- Witness for C6: a default-packaging, classifier-free coordinate set
serializes to the three mandatory fields only. -/
theorem C6_to_string_conditional_witness :
    sampleCoords.to_string = sampleCoords.group_id ++ ':' ::
      (sampleCoords.artifact_id ++ ':' :: sampleCoords.full_version) :=
  (C6_to_string_conditional sampleCoords).1 ⟨by decide, by decide⟩

/-- C7: for every coordinate set obtained from a successful parse, parsing
the output of `to_string` succeeds and yields the same coordinate set (all
six fields equal). -/
theorem C7_roundtrip (s : List Char) (c : Coordinates)
    (h : Coordinates.new s = .ok c) :
    Coordinates.new c.to_string = .ok c := by
  obtain ⟨hg, ha, hfv, hpk, hcls, hsplit⟩ := new_ok_fields s c h
  rcases hclo : c.classifier with _ | cl
  · by_cases hp : c.packaging = MAVEN_STANDARD_PACKAGING
    · rw [to_string_default c hp hclo,
        new_eq_of_splitOn _ _ _ _ _ (splitOn_three _ _ _ hg ha hfv)]
      refine congrArg Except.ok (eq_of_fields rfl rfl ?_ ?_ ?_ ?_)
      · show (Coordinates.split_version c.full_version).1 = c.version
        rw [hsplit]
      · show (Coordinates.split_version c.full_version).2 = c.version_label
        rw [hsplit]
      · exact hp.symm
      · exact hclo.symm
    · rw [to_string_with_packaging c hp hclo,
        new_eq_of_splitOn _ _ _ _ _ (splitOn_four _ _ _ _ hg ha hfv hpk)]
      refine congrArg Except.ok (eq_of_fields rfl rfl ?_ ?_ ?_ ?_)
      · show (Coordinates.split_version c.full_version).1 = c.version
        rw [hsplit]
      · show (Coordinates.split_version c.full_version).2 = c.version_label
        rw [hsplit]
      · rfl
      · exact hclo.symm
  · rw [to_string_with_classifier c cl hclo,
      new_eq_of_splitOn _ _ _ _ _ (splitOn_five _ _ _ _ _ hg ha hfv hpk (hcls cl hclo))]
    refine congrArg Except.ok (eq_of_fields rfl rfl ?_ ?_ ?_ ?_)
    · show (Coordinates.split_version c.full_version).1 = c.version
      rw [hsplit]
    · show (Coordinates.split_version c.full_version).2 = c.version_label
      rw [hsplit]
    · rfl
    · exact hclo.symm

/-- Witness for C7 at the crate's documentation example. -/
theorem C7_roundtrip_witness :
    Coordinates.new sampleCoords.to_string = .ok sampleCoords :=
  C7_roundtrip ("io.github.brawaru:artifact:1.0.0-SNAPSHOT".toList) sampleCoords
    (by decide)

theorem foldl_append_sep (sep : Char) (ds : List (List Char)) (init : List Char) :
    ds.foldl (fun path directory => path ++ directory ++ [sep]) init =
      init ++ (ds.map (fun d => d ++ [sep])).flatten := by
  induction ds generalizing init with
  | nil => simp
  | cons d ds ih =>
    rw [List.foldl_cons, ih]
    simp

/-- C8: the path is the concatenation, over the dot-separated segments of
the group in order, of segment-then-separator (so the group portion ends
with a trailing separator), then artifact, separator, full version,
separator, file name with nothing after it; and `as_path` is the path with
separator `/`. -/
theorem C8_as_path (c : Coordinates) (sep : Char) :
    c.as_path_with_separator sep =
      ((splitOn '.' c.group_id).map (fun d => d ++ [sep])).flatten
        ++ (c.artifact_id ++ sep :: (c.full_version ++ sep :: c.file_name))
    ∧ c.as_path = c.as_path_with_separator '/' := by
  constructor
  · show ((splitOn '.' c.group_id).foldl
        (fun path directory => path ++ directory ++ [sep]) [])
        ++ c.artifact_id ++ sep :: c.full_version ++ sep :: c.file_name = _
    rw [foldl_append_sep]
    simp [List.append_assoc]
  · rfl

/-- C9: `resolve` appends a `/` to the base exactly when it does not already
end with one, then appends the path, so a base without a trailing slash and
the same base with one resolve identically. -/
theorem C9_resolve (c : Coordinates) (b : List Char) :
    (b.getLast? ≠ some '/' →
      c.resolve b = b ++ '/' :: c.as_path
      ∧ c.resolve (b ++ ['/']) = c.resolve b)
    ∧ (b.getLast? = some '/' → c.resolve b = b ++ c.as_path) := by
  constructor
  · intro hb
    have hcond : b.getLast?.getD ' ' ≠ '/' := by
      rcases hL : b.getLast? with _ | x
      · decide
      · simp only [Option.getD_some]
        intro hx
        exact hb (by rw [hL, hx])
    have h1 : c.resolve b = b ++ '/' :: c.as_path := by
      show (if b.getLast?.getD ' ' ≠ '/' then b ++ ['/'] else b) ++ c.as_path = _
      rw [if_pos hcond]
      simp
    refine ⟨h1, ?_⟩
    have hlast : (b ++ ['/']).getLast? = some '/' := by simp
    show (if (b ++ ['/']).getLast?.getD ' ' ≠ '/' then (b ++ ['/']) ++ ['/']
        else b ++ ['/']) ++ c.as_path = c.resolve b
    rw [hlast, h1]
    simp
  · intro hb
    show (if b.getLast?.getD ' ' ≠ '/' then b ++ ['/'] else b) ++ c.as_path = _
    rw [hb]
    simp

/-- Witness for C9 at the spec's trailing-slash normalization example. -/
theorem C9_resolve_witness :
    sampleCoords.resolve ("https://host/maven".toList) =
      "https://host/maven".toList ++ '/' :: sampleCoords.as_path
    ∧ sampleCoords.resolve ("https://host/maven".toList ++ ['/']) =
      sampleCoords.resolve ("https://host/maven".toList) :=
  (C9_resolve sampleCoords ("https://host/maven".toList)).1 (by decide)

/-- C10: `resolve` is total on every base string: the last-character check
falls back to the space placeholder on the empty base, so resolving against
the empty string yields `/` followed by the path, and on every base the
result is the base (with `/` appended unless already trailing) plus the
path. -/
theorem C10_resolve_total (c : Coordinates) :
    c.resolve [] = '/' :: c.as_path
    ∧ ∀ b, c.resolve b =
        (if b.getLast? = some '/' then b else b ++ ['/']) ++ c.as_path := by
  constructor
  · show (if ([] : List Char).getLast?.getD ' ' ≠ '/' then ([] : List Char) ++ ['/']
        else []) ++ c.as_path = '/' :: c.as_path
    rw [if_pos (by decide)]
    rfl
  · intro b
    show (if b.getLast?.getD ' ' ≠ '/' then b ++ ['/'] else b) ++ c.as_path = _
    rcases hL : b.getLast? with _ | x
    · rw [if_pos (by decide), if_neg (by simp)]
    · by_cases hx : x = '/'
      · subst hx
        rw [if_neg (by decide), if_pos rfl]
      · rw [if_pos (by simpa using hx), if_neg (by simp [hx])]

end Maven
